import Mathlib

/-!
Shallow embedding of the objconv generic encoder (src/encode.go) and of the
stream-encoder session wrapper, together with a spec-modelled fragment of the
RESP wire codec (whose implementation is not under src/, only its tests).

The Emitter interface is modelled as a deterministic response function: given
the trace of emit calls made so far and the next call (a `Token`), it answers
with `none` (success) or `some err`.  The trace of calls plays the role of the
emitted output; every Go `Emit*` call appends its token to the trace, whether
or not the emitter reports an error for it.
-/

set_option autoImplicit false

namespace Objconv

/-- Errors returned by the Go code paths modelled here.  `endSentinel` is the
package-level `End` sentinel, `shadow` the `Shadow` sentinel (part_001),
`closedPipe` is `io.ErrClosedPipe`, `tooMany` the capacity error built by
`StreamEncoder.Encode` (it carries the configured limit), and `custom n`
stands for an arbitrary distinct error produced by an emitter or callback. -/
inductive GoErr where
  | endSentinel
  | shadow
  | closedPipe
  | tooMany (limit : Int)
  | fuelOut
  | custom (n : Nat)
  deriving DecidableEq

/-- One primitive Emitter call, as in the Emitter interface used by
src/encode.go.  `arrayBegin`/`mapBegin` carry the announced count (an int,
negative meaning unknown length). -/
inductive Token where
  | nilTok
  | boolTok (b : Bool)
  | intTok (i : Int) (bits : Nat)
  | uintTok (u : Nat) (bits : Nat)
  | strTok (s : String)
  | bytesTok (s : String)
  | timeTok
  | arrayBegin (n : Int)
  | arrayNext
  | arrayEnd
  | mapBegin (n : Int)
  | mapNext
  | mapValue
  | mapEnd
  deriving DecidableEq

/-- An Emitter: for a given trace of calls already made and the next call, it
either succeeds (`none`) or fails with an error. -/
structure Emitter where
  emit : List Token → Token → Option GoErr

/-- Making one emit call: the token is appended to the trace and the
emitter's answer for that call is returned alongside. -/
def Emitter.call (em : Emitter) (st : List Token) (t : Token) :
    List Token × Option GoErr :=
  (st ++ [t], em.emit st t)

/-- The always-succeeding emitter. -/
def em0 : Emitter := ⟨fun _ _ => none⟩

/-! ## Encoder.EncodeArray (src/encode.go lines 480-508)

The element producer `f` is the Go callback `func(Encoder) error`,
functionalized over the element index (Go closures capture a mutable index);
it receives the current trace and returns the new trace and its error.

The loop `for i := 0; n < 0 || i < n; i++` can run unboundedly when `n < 0`,
so the model takes a fuel bound; exhausting the fuel while the loop condition
still holds yields the marker `GoErr.fuelOut`, which no Go code path
produces.  All theorems hold for every fuel value.

Faithful detail: the source reads `if e.Emitter.EmitArrayNext(); err != nil`
— the result of `EmitArrayNext` is *not* assigned to `err`, so the call is
made (the token enters the trace) but its error is discarded and the stale
`err` (necessarily nil at that point) is tested. -/

def encodeArrayLoop (em : Emitter) (n : Int)
    (f : Nat → List Token → List Token × Option GoErr) :
    Nat → Nat → List Token → List Token × Option GoErr
  | 0, i, st =>
    if n < 0 ∨ (i : Int) < n then (st, some GoErr.fuelOut)
    else em.call st Token.arrayEnd
  | fuel + 1, i, st =>
    if n < 0 ∨ (i : Int) < n then
      let st1 := if i = 0 then st else st ++ [Token.arrayNext]
      let r := f i st1
      match r.2 with
      | none => encodeArrayLoop em n f fuel (i + 1) r.1
      | some e =>
        if e = GoErr.endSentinel then em.call r.1 Token.arrayEnd
        else (r.1, some e)
    else
      em.call st Token.arrayEnd

/-- `Encoder.EncodeArray`: optional `EmitMapValue` when the map-value flag is
set, then `EmitArrayBegin(n)`, then the element loop. -/
def encodeArrayGo (em : Emitter) (key : Bool) (n : Int)
    (f : Nat → List Token → List Token × Option GoErr) (fuel : Nat)
    (st : List Token) : List Token × Option GoErr :=
  let step := fun (st : List Token) =>
    let r := em.call st (Token.arrayBegin n)
    match r.2 with
    | some e => (r.1, some e)
    | none => encodeArrayLoop em n f fuel 0 r.1
  if key then
    let r := em.call st Token.mapValue
    match r.2 with
    | some e => (r.1, some e)
    | none => step r.1
  else step st

/-- Emitter whose `EmitArrayNext` call fails with a distinct error while all
other calls succeed. -/
def emArrayNextFails : Emitter :=
  ⟨fun _ t => if t = Token.arrayNext then some (GoErr.custom 7) else none⟩

/-- Element producer encoding the element index as a 64-bit integer through
`emArrayNextFails`, as `Encoder.encodeArrayWith` does for an int slice. -/
def fInts : Nat → List Token → List Token × Option GoErr :=
  fun i st => (st ++ [Token.intTok (i : Int) 64], emArrayNextFails.emit st (Token.intTok (i : Int) 64))

/-! ## StreamEncoder (src/encode.go lines 560-656)

The mutable `StreamEncoder` struct is modelled as an explicit state record;
the emitter's output trace is carried inside the state, and the emitter's
response function is passed to each operation.  Fields mirror the Go struct:
`err`, `max`, `cnt`, `opened`, `closed`, `oneshot`. -/

structure SEState where
  err : Option GoErr
  max : Int
  cnt : Int
  opened : Bool
  closed : Bool
  oneshot : Bool
  trace : List Token
  deriving DecidableEq

/-- The state `NewStreamEncoder` returns: Go zero values everywhere. -/
def freshSE : SEState :=
  { err := none, max := 0, cnt := 0, opened := false, closed := false,
    oneshot := false, trace := [] }

/-- `StreamEncoder.Open` (lines 591-610): sticky error first, then the
already-closed check returning `io.ErrClosedPipe`; if not yet opened, record
`max := n`, mark opened and (unless one-shot) emit `ArrayBegin(n)`, storing
the emitter's answer in `err`; finally return `err`. -/
def seOpen (em : Emitter) (s : SEState) (n : Int) : SEState × Option GoErr :=
  match s.err with
  | some e => (s, some e)
  | none =>
    if s.closed then (s, some GoErr.closedPipe)
    else if s.opened then (s, s.err)
    else
      let s1 := { s with max := n, opened := true }
      if s1.oneshot then (s1, s1.err)
      else
        let r := em.call s1.trace (Token.arrayBegin n)
        let s2 := { s1 with trace := r.1, err := r.2 }
        (s2, s2.err)

/-- `StreamEncoder.Close` (lines 613-627): `Open(-1)` first, returning its
error if any; then, if not already closed, mark closed and (unless one-shot)
emit `ArrayEnd`, storing the answer in `err`; return `err`. -/
def seClose (em : Emitter) (s : SEState) : SEState × Option GoErr :=
  let r := seOpen em s (-1)
  match r.2 with
  | some e => (r.1, some e)
  | none =>
    let s1 := r.1
    if s1.closed then (s1, s1.err)
    else
      let s2 := { s1 with closed := true }
      if s2.oneshot then (s2, s2.err)
      else
        let rr := em.call s2.trace Token.arrayEnd
        let s3 := { s2 with trace := rr.1, err := rr.2 }
        (s3, s3.err)

/-- `StreamEncoder.Encode` (lines 631-656).  `encV` stands for the value
encoding performed by the fresh inner `Encoder` on the emitter (it transforms
the trace and may fail).  Mirrors the source: `Open(-1)`; capacity check
`e.max >= 0 && e.cnt >= e.max` returning the capacity error without touching
the state; `EmitArrayNext` between elements (unless one-shot); then, if `err`
is still nil, encode the value, increment `cnt` and auto-`Close` once
`cnt >= max >= 0` (the `Close` return value is discarded); return `err`. -/
def seEncode (em : Emitter) (encV : List Token → List Token × Option GoErr)
    (s : SEState) : SEState × Option GoErr :=
  let r := seOpen em s (-1)
  match r.2 with
  | some e => (r.1, some e)
  | none =>
    let s1 := r.1
    if 0 ≤ s1.max ∧ s1.max ≤ s1.cnt then (s1, some (GoErr.tooMany s1.max))
    else
      let s2 :=
        if ¬ s1.oneshot ∧ s1.cnt ≠ 0 then
          let rr := em.call s1.trace Token.arrayNext
          { s1 with trace := rr.1, err := rr.2 }
        else s1
      match s2.err with
      | some e => (s2, some e)
      | none =>
        let rv := encV s2.trace
        let s3 := { s2 with trace := rv.1, err := rv.2, cnt := s2.cnt + 1 }
        let s4 := if 0 ≤ s3.max ∧ s3.max ≤ s3.cnt then (seClose em s3).1 else s3
        (s4, s4.err)

/-- Value encoding used in concrete stream-encoder runs: one `EmitInt` call
that always succeeds. -/
def encIntV : List Token → List Token × Option GoErr :=
  fun st => (st ++ [Token.intTok 42 64], none)

/-- A stream encoder state that has been successfully closed. -/
def closedSE : SEState := { freshSE with opened := true, closed := true }

/-! ## NewEncoder / NewStreamEncoder (src/encode.go lines 29-34 and 578-583)

A Go interface value that may be nil is modelled as an `Option`; a Go panic
is modelled as the `Except.error` branch carrying the panic message. -/

/-- The `Encoder` struct: emitter, `SortMapKeys`, and the private map-value
flag `key`. -/
structure GoEncoder (ε : Type) where
  emitter : ε
  sortMapKeys : Bool
  key : Bool
  deriving DecidableEq

/-- The `StreamEncoder` struct as built by its constructor. -/
structure GoStreamEncoder (ε : Type) where
  emitter : ε
  sortMapKeys : Bool
  err : Option GoErr
  max : Int
  cnt : Int
  opened : Bool
  closed : Bool
  oneshot : Bool
  deriving DecidableEq

/-- `NewEncoder`: panics when the emitter is nil, otherwise returns
`&Encoder{Emitter: e}` (all other fields zero-valued). -/
def newEncoderGo {ε : Type} (e : Option ε) : Except String (GoEncoder ε) :=
  match e with
  | none => Except.error "objconv: the emitter is nil"
  | some em => Except.ok { emitter := em, sortMapKeys := false, key := false }

/-- `NewStreamEncoder`: panics when the emitter is nil, otherwise returns
`&StreamEncoder{Emitter: e}` (all other fields zero-valued). -/
def newStreamEncoderGo {ε : Type} (e : Option ε) :
    Except String (GoStreamEncoder ε) :=
  match e with
  | none => Except.error "objconv.NewStreamEncoder: the emitter is nil"
  | some em =>
    Except.ok { emitter := em, sortMapKeys := false, err := none, max := 0,
                cnt := 0, opened := false, closed := false, oneshot := false }

/-! ## Encoder.encodeStructWith (src/encode.go lines 383-420)

A field descriptor pairs the wire name with the omit predicate `f.omit` and
the specialized routine `f.encode`; struct field values are modelled as
integers.  A struct value is the list of (descriptor, field value) pairs in
descriptor order (the source walks `s.fields` and reads the value with
`v.FieldByIndex(f.index)`). -/

structure FieldM where
  name : String
  omitF : Int → Bool
  encF : Int → List Token → List Token × Option GoErr

/-- First loop of `encodeStructWith`: count the fields whose omit predicate
does not hold. -/
def countNonOmitted : List (FieldM × Int) → Nat
  | [] => 0
  | p :: rest => (if p.1.omitF p.2 then 0 else 1) + countNonOmitted rest

/-- Second loop of `encodeStructWith`: for each non-omitted field emit
`MapNext` (except before the first emitted one, tracked by the counter `n`),
the field name, `MapValue`, and the field value; then `MapEnd`. -/
def encodeStructLoop (em : Emitter) :
    List (FieldM × Int) → Nat → List Token → List Token × Option GoErr
  | [], _, st => em.call st Token.mapEnd
  | p :: rest, n, st =>
    if p.1.omitF p.2 then
      encodeStructLoop em rest n st
    else
      let r1 := if n = 0 then (st, none) else em.call st Token.mapNext
      match r1.2 with
      | some e => (r1.1, some e)
      | none =>
        let r2 := em.call r1.1 (Token.strTok p.1.name)
        match r2.2 with
        | some e => (r2.1, some e)
        | none =>
          let r3 := em.call r2.1 Token.mapValue
          match r3.2 with
          | some e => (r3.1, some e)
          | none =>
            let r4 := p.1.encF p.2 r3.1
            match r4.2 with
            | some e => (r4.1, some e)
            | none => encodeStructLoop em rest (n + 1) r4.1

/-- `encodeStructWith`: `EmitMapBegin` with the non-omitted count, then the
field loop. -/
def encodeStructGo (em : Emitter) (fields : List (FieldM × Int))
    (st : List Token) : List Token × Option GoErr :=
  let r := em.call st (Token.mapBegin (countNonOmitted fields : Int))
  match r.2 with
  | some e => (r.1, some e)
  | none => encodeStructLoop em fields 0 r.1

/-- The token block an error-free run of the field loop produces: one
name/`MapValue`/value triple per kept field, separated by `MapNext`. -/
def structBody (encOut : FieldM × Int → List Token) :
    List (FieldM × Int) → Bool → List Token
  | [], _ => []
  | p :: rest, first =>
    (if first then [] else [Token.mapNext]) ++
      Token.strTok p.1.name :: Token.mapValue :: encOut p ++
      structBody encOut rest false

/-! ## Encoder.encodeMapWith with SortMapKeys (src/encode.go lines 246-287)

With `e.SortMapKeys` set the convertible fast paths are skipped, the key list
returned by `v.MapKeys()` (the map's iteration order) is sorted by the keys'
natural order (`sortValues`), and `EncodeMap` drives the loop, calling the
key routine, `EmitMapValue`, and the value routine on `v.MapIndex(k[i])` for
each key.  Keys are modelled as naturals under their natural order, values as
integers, the map's content as a lookup function. -/

/-- The `EncodeMap` element loop (lines 521-558) specialised to the closure
built by `encodeMapWith`: `EmitMapNext` between elements, then key, then
`EmitMapValue`, then the value looked up for the key.  An `End` returned by
the closure breaks the loop and emits `MapEnd`; other errors return. -/
def encodeMapLoop (em : Emitter)
    (kf : Nat → List Token → List Token × Option GoErr)
    (vf : Int → List Token → List Token × Option GoErr) (lookup : Nat → Int) :
    List Nat → Bool → List Token → List Token × Option GoErr
  | [], _, st => em.call st Token.mapEnd
  | k :: rest, first, st =>
    let r0 := if first then (st, none) else em.call st Token.mapNext
    match r0.2 with
    | some e => (r0.1, some e)
    | none =>
      let r1 := kf k r0.1
      match r1.2 with
      | some e =>
        if e = GoErr.endSentinel then em.call r1.1 Token.mapEnd
        else (r1.1, some e)
      | none =>
        let r2 := em.call r1.1 Token.mapValue
        match r2.2 with
        | some e =>
          if e = GoErr.endSentinel then em.call r2.1 Token.mapEnd
          else (r2.1, some e)
        | none =>
          let r3 := vf (lookup k) r2.1
          match r3.2 with
          | some e =>
            if e = GoErr.endSentinel then em.call r3.1 Token.mapEnd
            else (r3.1, some e)
          | none => encodeMapLoop em kf vf lookup rest false r3.1

/-- `encodeMapWith` on the `SortMapKeys = true` branch: sort the iteration
key list, then `EncodeMap(v.Len(), f)` — the optional `EmitMapValue` for the
map-value flag, `EmitMapBegin` with the length, and the element loop. -/
def encodeMapSortedGo (em : Emitter)
    (kf : Nat → List Token → List Token × Option GoErr)
    (vf : Int → List Token → List Token × Option GoErr) (lookup : Nat → Int)
    (keys : List Nat) (key : Bool) (st : List Token) :
    List Token × Option GoErr :=
  let ks := List.insertionSort (· ≤ ·) keys
  let step := fun (st : List Token) =>
    let r := em.call st (Token.mapBegin (keys.length : Int))
    match r.2 with
    | some e => (r.1, some e)
    | none => encodeMapLoop em kf vf lookup ks true r.1
  if key then
    let r := em.call st Token.mapValue
    match r.2 with
    | some e => (r.1, some e)
    | none => step r.1
  else step st

/-! ## makeEncodeFunc (src/encode.go lines 688-838)

The selection logic that maps a reflected type to an encoding routine,
abstracted over the facts the source queries about the type: registered
adapter, identity with one of the specifically handled types, implemented
interfaces, and reflection kind. -/

/-- The specifically handled types of the first switch in `makeEncodeFunc`
(`boolType`, `stringType`, ..., `float64Type`). -/
inductive SpecialT where
  | boolT | stringT | bytesT | timeT | timePtrT | durationT | emptyInterfaceT
  | intT | int8T | int16T | int32T | int64T
  | uintT | uint8T | uint16T | uint32T | uint64T | uintptrT
  | float32T | float64T
  deriving DecidableEq

/-- The reflection kinds the final switch of `makeEncodeFunc` branches on. -/
inductive RKind where
  | structK | sliceK | mapK | ptrK | arrayK | stringK | boolK
  | intK | int8K | int16K | int32K | int64K
  | uintK | uint8K | uint16K | uint32K | uint64K | uintptrK
  | float32K | float64K
  | otherK
  deriving DecidableEq

/-- The facts about a Go type that `makeEncodeFunc` consults. -/
structure TypeModel where
  hasAdapter : Bool
  special : Option SpecialT
  implementsValueEncoder : Bool
  implementsBinaryMarshaler : Bool
  implementsTextMarshaler : Bool
  implementsError : Bool
  kind : RKind
  elemIsUint8 : Bool
  deriving DecidableEq

/-- The encoding routine `makeEncodeFunc` can return.  Integer / unsigned /
float routines are collapsed to their emitted bit size (`encodeInt` emits
with size 0, `encodeInt8` with size 8, ...). -/
inductive EncSel where
  | adapterEnc
  | boolEnc | stringEnc | bytesEnc | timeEnc | durationEnc | interfaceEnc
  | intEnc (bits : Nat) | uintEnc (bits : Nat) | floatEnc (bits : Nat)
  | valueEncoderEnc | marshalerEnc | binaryMarshalerEnc | textMarshalerEnc
  | errorEnc
  | structEnc | arrayEnc | mapEnc | ptrEnc
  | unsupportedEnc
  deriving DecidableEq

/-- `makeEncodeFunc`: adapter lookup first; then the switch on the specific
types; then the capability checks (ValueEncoder, then both marshalers, then
binary, then text, then error); then the switch on the reflection kind. -/
def makeEncodeFuncSel (t : TypeModel) : EncSel :=
  if t.hasAdapter then EncSel.adapterEnc
  else
    match t.special with
    | some SpecialT.boolT => EncSel.boolEnc
    | some SpecialT.stringT => EncSel.stringEnc
    | some SpecialT.bytesT => EncSel.bytesEnc
    | some SpecialT.timeT => EncSel.timeEnc
    | some SpecialT.timePtrT => EncSel.timeEnc
    | some SpecialT.durationT => EncSel.durationEnc
    | some SpecialT.emptyInterfaceT => EncSel.interfaceEnc
    | some SpecialT.intT => EncSel.intEnc 0
    | some SpecialT.int8T => EncSel.intEnc 8
    | some SpecialT.int16T => EncSel.intEnc 16
    | some SpecialT.int32T => EncSel.intEnc 32
    | some SpecialT.int64T => EncSel.intEnc 64
    | some SpecialT.uintT => EncSel.uintEnc 0
    | some SpecialT.uint8T => EncSel.uintEnc 8
    | some SpecialT.uint16T => EncSel.uintEnc 16
    | some SpecialT.uint32T => EncSel.uintEnc 32
    | some SpecialT.uint64T => EncSel.uintEnc 64
    | some SpecialT.uintptrT => EncSel.uintEnc 0
    | some SpecialT.float32T => EncSel.floatEnc 32
    | some SpecialT.float64T => EncSel.floatEnc 64
    | none =>
      if t.implementsValueEncoder then EncSel.valueEncoderEnc
      else if t.implementsBinaryMarshaler ∧ t.implementsTextMarshaler then
        EncSel.marshalerEnc
      else if t.implementsBinaryMarshaler then EncSel.binaryMarshalerEnc
      else if t.implementsTextMarshaler then EncSel.textMarshalerEnc
      else if t.implementsError then EncSel.errorEnc
      else
        match t.kind with
        | RKind.structK => EncSel.structEnc
        | RKind.sliceK =>
          if t.elemIsUint8 then EncSel.bytesEnc else EncSel.arrayEnc
        | RKind.mapK => EncSel.mapEnc
        | RKind.ptrK => EncSel.ptrEnc
        | RKind.arrayK => EncSel.arrayEnc
        | RKind.stringK => EncSel.stringEnc
        | RKind.boolK => EncSel.boolEnc
        | RKind.intK => EncSel.intEnc 0
        | RKind.int8K => EncSel.intEnc 8
        | RKind.int16K => EncSel.intEnc 16
        | RKind.int32K => EncSel.intEnc 32
        | RKind.int64K => EncSel.intEnc 64
        | RKind.uintK => EncSel.uintEnc 0
        | RKind.uint8K => EncSel.uintEnc 8
        | RKind.uint16K => EncSel.uintEnc 16
        | RKind.uint32K => EncSel.uintEnc 32
        | RKind.uint64K => EncSel.uintEnc 64
        | RKind.uintptrK => EncSel.uintEnc 0
        | RKind.float32K => EncSel.floatEnc 32
        | RKind.float64K => EncSel.floatEnc 64
        | RKind.otherK => EncSel.unsupportedEnc

/-- Whether a selected routine serializes through one of the custom encoding
capabilities named by the spec (ValueEncoder, text-marshal, binary-marshal). -/
def isCapabilitySel : EncSel → Bool
  | EncSel.valueEncoderEnc => true
  | EncSel.marshalerEnc => true
  | EncSel.binaryMarshalerEnc => true
  | EncSel.textMarshalerEnc => true
  | _ => false

/-- The facts `makeEncodeFunc` sees for Go's `time.Time`: it is one of the
specifically handled types, structurally a struct, and implements both
`encoding.TextMarshaler` and `encoding.BinaryMarshaler`. -/
def timeTypeModel : TypeModel :=
  { hasAdapter := false, special := some SpecialT.timeT,
    implementsValueEncoder := false, implementsBinaryMarshaler := true,
    implementsTextMarshaler := true, implementsError := false,
    kind := RKind.structK, elemIsUint8 := false }

/-! ## RESP wire-protocol parser, modelled from the spec

The RESP codec implementation is not under src/ — only its tests
(src/resp/decode_test.go, src/resp/parse_test.go) are.  The grammar below is
therefore taken from spec §4.6: each message is prefix-typed (`+` simple
string, `-` error, `:` integer, `$n` bulk byte-string, `*n` array) and
CRLF-terminated; `$-1` CR LF and `*-1` CR LF are the two null spellings, both
denoting Nil. -/

/-- A parsed RESP message. -/
inductive RespV where
  | simple (s : String)
  | errV (s : String)
  | intV (i : Int)
  | bulk (s : String)
  | arr (xs : List RespV)
  | nilV

/-- Read one CRLF-terminated line: the characters before the first CR LF pair
and the rest of the input after it. -/
def readLine : List Char → Option (List Char × List Char)
  | [] => none
  | '\r' :: '\n' :: rest => some ([], rest)
  | c :: rest =>
    match readLine rest with
    | none => none
    | some p => some (c :: p.1, p.2)

/-- Decimal digits to a natural number; fails on empty input or a non-digit. -/
def digitsToNat (cs : List Char) : Option Nat :=
  if cs.isEmpty then none
  else
    cs.foldl
      (fun acc c =>
        match acc with
        | none => none
        | some a => if c.isDigit then some (a * 10 + (c.toNat - 48)) else none)
      (some 0)

/-- Decimal text to an integer, with an optional leading minus sign. -/
def parseIntLine : List Char → Option Int
  | '-' :: rest => (digitsToNat rest).map (fun n => -(n : Int))
  | cs => (digitsToNat cs).map (fun n => (n : Int))

mutual

/-- Modelled from the spec: the RESP parser (spec §4.6), whose implementation
is missing from src/.  Parses one message from the head of the input and
returns it with the unconsumed rest; the fuel bounds array-nesting depth and
only matters for inputs deeper than the fuel. -/
def respParse : Nat → List Char → Option (RespV × List Char)
  | 0, _ => none
  | _ + 1, [] => none
  | fuel + 1, c :: rest =>
    if c = '+' then
      (readLine rest).map (fun p => (RespV.simple (String.mk p.1), p.2))
    else if c = '-' then
      (readLine rest).map (fun p => (RespV.errV (String.mk p.1), p.2))
    else if c = ':' then
      match readLine rest with
      | none => none
      | some p =>
        match parseIntLine p.1 with
        | none => none
        | some i => some (RespV.intV i, p.2)
    else if c = '$' then
      match readLine rest with
      | none => none
      | some p =>
        match parseIntLine p.1 with
        | none => none
        | some n =>
          if n = -1 then some (RespV.nilV, p.2)
          else if n < 0 then none
          else if p.2.length < n.toNat then none
          else
            match p.2.drop n.toNat with
            | '\r' :: '\n' :: rest2 =>
              some (RespV.bulk (String.mk (p.2.take n.toNat)), rest2)
            | _ => none
    else if c = '*' then
      match readLine rest with
      | none => none
      | some p =>
        match parseIntLine p.1 with
        | none => none
        | some n =>
          if n = -1 then some (RespV.nilV, p.2)
          else if n < 0 then none
          else
            match respParseMany fuel n.toNat p.2 with
            | none => none
            | some q => some (RespV.arr q.1, q.2)
    else none

/-- Modelled from the spec: parse `k` consecutive RESP messages (the elements
of an array). -/
def respParseMany : Nat → Nat → List Char → Option (List RespV × List Char)
  | _, 0, input => some ([], input)
  | 0, _ + 1, _ => none
  | fuel + 1, k + 1, input =>
    match respParse fuel input with
    | none => none
    | some p =>
      match respParseMany fuel k p.2 with
      | none => none
      | some q => some (p.1 :: q.1, q.2)

end

/-- Modelled from the spec: decoding a parsed message into a nullable
destination (§4.4: "Nil into a pointer/optional sets it empty"); `dec` is the
decoding the destination's element type would perform on a non-nil message. -/
def respDecodeNullable {α : Type} (dec : RespV → Option α) (v : RespV) :
    Option (Option α) :=
  match v with
  | RespV.nilV => some none
  | w => (dec w).map some

/-- A type model for a struct type implementing `ValueEncoder` (and none of
the specifically handled types, no registered adapter). -/
def structVEModel : TypeModel :=
  { hasAdapter := false, special := none, implementsValueEncoder := true,
    implementsBinaryMarshaler := false, implementsTextMarshaler := false,
    implementsError := false, kind := RKind.structK, elemIsUint8 := false }

/-- Element producer that immediately signals the `End` sentinel. -/
def fEndAt0 : Nat → List Token → List Token × Option GoErr :=
  fun _ st => (st, some GoErr.endSentinel)

/-- Key routine for concrete sorted-map runs: emit the key as an integer. -/
def kfW : Nat → List Token → List Token × Option GoErr :=
  fun k st => (st ++ [Token.intTok (k : Int) 64], none)

/-- Value routine for concrete sorted-map runs: emit the value. -/
def vfW : Int → List Token → List Token × Option GoErr :=
  fun v st => (st ++ [Token.intTok v 64], none)

/-- Lookup function of a concrete two-entry map. -/
def lookW : Nat → Int := fun k => (k : Int) * 10

/-- A field named "a" omitted when zero, encoded as a 64-bit integer. -/
def fieldA : FieldM :=
  { name := "a", omitF := fun v => v == 0,
    encF := fun v st => (st ++ [Token.intTok v 64], none) }

/-- A field named "b" omitted when zero, encoded as a 64-bit integer. -/
def fieldB : FieldM :=
  { name := "b", omitF := fun v => v == 0,
    encF := fun v st => (st ++ [Token.intTok v 64], none) }

/-- A two-field struct value: "a" holds its zero value, "b" holds 5. -/
def wFields : List (FieldM × Int) := [(fieldA, 0), (fieldB, 5)]

/-- The per-field value block for the concrete fields. -/
def wEncOut : FieldM × Int → List Token := fun p => [Token.intTok p.2 64]

/-! # Theorems for the claims -/

/-- C1, counterexample: on a fresh stream encoder over an always-succeeding
emitter, the first `Close` succeeds, but a second `Close` returns
`io.ErrClosedPipe` (the already-closed check in `Open(-1)`), not nil — so a
second `Close` after a successful one is not a no-op returning no error. -/
theorem c1_counterexample :
    (seClose em0 freshSE).2 = none ∧
    (seClose em0 (seClose em0 freshSE).1).2 = some GoErr.closedPipe ∧
    (seClose em0 (seClose em0 freshSE).1).2 ≠ none := by decide

/-- C1, amended: calling `Close` on a stream encoder that is already closed
with no sticky error leaves the state (and the emitted trace) unchanged and
returns `io.ErrClosedPipe`. -/
theorem c1_close_after_closed (em : Emitter) (s : SEState)
    (h1 : s.closed = true) (h2 : s.err = none) :
    seClose em s = (s, some GoErr.closedPipe) := by
  simp [seClose, seOpen, h1, h2]

/-- C1, witness for the amended theorem at a concrete closed state. -/
theorem c1_close_after_closed_witness :
    seClose em0 closedSE = (closedSE, some GoErr.closedPipe) :=
  c1_close_after_closed em0 closedSE rfl rfl

/-- C2, code bug: encoding a two-element array over an emitter whose
`EmitArrayNext` fails with a distinct error — the call is made and its error
returned (first conjunct), yet `EncodeArray` keeps traversing (the second
element is encoded) and returns nil, because the source discards the call's
result in `if e.Emitter.EmitArrayNext(); err != nil`. -/
theorem c2_arrayNext_error_dropped :
    emArrayNextFails.emit [Token.arrayBegin 2, Token.intTok 0 64] Token.arrayNext =
      some (GoErr.custom 7) ∧
    encodeArrayGo emArrayNextFails false 2 fInts 3 [] =
      ([Token.arrayBegin 2, Token.intTok 0 64, Token.arrayNext, Token.intTok 1 64,
        Token.arrayEnd], none) := by decide

/-- C3, counterexample: a stream encoder opened with declared count 1, after
one successful `Encode`, answers the next `Encode` with `io.ErrClosedPipe`
(reaching the count auto-closed the stream), not with the capacity error. -/
theorem c3_counterexample :
    (seOpen em0 freshSE 1).2 = none ∧
    (seEncode em0 encIntV (seOpen em0 freshSE 1).1).2 = none ∧
    (seEncode em0 encIntV (seEncode em0 encIntV (seOpen em0 freshSE 1).1).1).2 =
      some GoErr.closedPipe ∧
    some GoErr.closedPipe ≠ some (GoErr.tooMany 1) := by decide

/-- C3, amended: over an always-succeeding emitter, (i) `Encode` on an
already-closed stream (as left behind by the auto-close that fires when the
declared count is reached) returns `io.ErrClosedPipe`; (ii) the capacity
error is returned only when the stream is open, not closed, and its count has
already reached its declared non-negative maximum — among declared counts
this is the `n = 0` case; (iii) an `Encode` that makes the count reach the
declared maximum leaves the stream closed with no error. -/
theorem c3_amended (em : Emitter)
    (encV : List Token → List Token × Option GoErr) (s : SEState)
    (hEm : ∀ tr t, em.emit tr t = none) :
    (s.closed = true → s.err = none →
      seEncode em encV s = (s, some GoErr.closedPipe)) ∧
    (s.closed = false → s.err = none → s.opened = true →
      0 ≤ s.max → s.max ≤ s.cnt →
      seEncode em encV s = (s, some (GoErr.tooMany s.max))) ∧
    (s.closed = false → s.err = none → s.opened = true →
      (∀ tr, (encV tr).2 = none) →
      0 ≤ s.max → s.cnt < s.max → s.max ≤ s.cnt + 1 →
      (seEncode em encV s).1.closed = true ∧ (seEncode em encV s).2 = none) := by
  refine ⟨fun h1 h2 => ?_, fun h1 h2 h3 h4 h5 => ?_, fun h1 h2 h3 hV h4 h5 h6 => ?_⟩
  · simp [seEncode, seOpen, h1, h2]
  · simp [seEncode, seOpen, h1, h2, h3, h4, h5]
  · have hmax : ¬ (0 ≤ s.max ∧ s.max ≤ s.cnt) := by omega
    have hmax2 : 0 ≤ s.max ∧ s.max ≤ s.cnt + 1 := ⟨h4, h6⟩
    have hmax3 : ¬ s.max ≤ s.cnt := by omega
    by_cases hos : s.oneshot = true
    · simp [seEncode, seOpen, seClose, Emitter.call, h1, h2, h3, hos, hmax,
        hmax2, hmax3, h6, hEm, hV]
    · by_cases hc : s.cnt = 0
      · have hA : ¬ s.max ≤ (0 : Int) := by omega
        have hB : s.max ≤ (1 : Int) := by omega
        simp [seEncode, seOpen, seClose, Emitter.call, h1, h2, h3, hos, hc,
          hmax, hmax2, hmax3, hA, hB, hEm, hV]
      · simp [seEncode, seOpen, seClose, Emitter.call, h1, h2, h3, hos, hc,
          hmax, hmax2, hmax3, h6, hEm, hV]

/-- C3, witness for the amended theorem: conjunct (i) at a concrete closed
state, discharging the hypotheses. -/
theorem c3_amended_witness :
    seEncode em0 encIntV closedSE = (closedSE, some GoErr.closedPipe) :=
  (c3_amended em0 encIntV closedSE (fun _ _ => rfl)).1 rfl rfl

/-- C8, counterexample: closing a never-opened stream encoder emits
array-begin with count -1 (`Close` calls `Open(-1)`), not with count 0 as
the claim states — no array-begin token with count 0 appears in the trace. -/
theorem c8_counterexample :
    (seClose em0 freshSE).1.trace = [Token.arrayBegin (-1), Token.arrayEnd] ∧
    Token.arrayBegin 0 ∉ (seClose em0 freshSE).1.trace := by decide

/-- C8, amended: calling `Close` on a never-opened, non-one-shot stream
encoder (no sticky error) over an always-succeeding emitter first opens the
stream with unknown count -1 — emitting array-begin with count -1 — then
emits array-end, and succeeds. -/
theorem c8_close_unopened (em : Emitter) (s : SEState)
    (hEm : ∀ tr t, em.emit tr t = none)
    (h1 : s.opened = false) (h2 : s.closed = false) (h3 : s.err = none)
    (h4 : s.oneshot = false) :
    (seClose em s).2 = none ∧
    (seClose em s).1.trace =
      s.trace ++ [Token.arrayBegin (-1), Token.arrayEnd] ∧
    (seClose em s).1.closed = true := by
  simp [seClose, seOpen, Emitter.call, h1, h2, h3, h4, hEm]

/-- C8, witness for the amended theorem at the fresh state. -/
theorem c8_close_unopened_witness :
    (seClose em0 freshSE).2 = none ∧
    (seClose em0 freshSE).1.trace =
      freshSE.trace ++ [Token.arrayBegin (-1), Token.arrayEnd] ∧
    (seClose em0 freshSE).1.closed = true :=
  c8_close_unopened em0 freshSE (fun _ _ => rfl) rfl rfl rfl rfl

/-- C10: `NewEncoder` and `NewStreamEncoder` panic (modelled as the error
branch) exactly on a nil emitter, and on a non-nil emitter return the session
struct whose `Emitter` field is that argument and whose other fields are
zero-valued. -/
theorem c10_constructors (ε : Type) (em : ε) :
    newEncoderGo (none : Option ε) =
      Except.error "objconv: the emitter is nil" ∧
    newEncoderGo (some em) =
      Except.ok { emitter := em, sortMapKeys := false, key := false } ∧
    newStreamEncoderGo (none : Option ε) =
      Except.error "objconv.NewStreamEncoder: the emitter is nil" ∧
    newStreamEncoderGo (some em) =
      Except.ok { emitter := em, sortMapKeys := false, err := none, max := 0,
                  cnt := 0, opened := false, closed := false,
                  oneshot := false } :=
  ⟨rfl, rfl, rfl, rfl⟩

/-- C9: both null spellings of the wire protocol — the bytes of the null bulk
string and of the null array — parse to the Nil message consuming the whole
input, and decoding Nil into any nullable destination sets it empty. -/
theorem c9_nil_spellings {α : Type} (dec : RespV → Option α) :
    respParse 2 "$-1\r\n".data = some (RespV.nilV, []) ∧
    respParse 2 "*-1\r\n".data = some (RespV.nilV, []) ∧
    respDecodeNullable dec RespV.nilV = some none :=
  ⟨rfl, rfl, rfl⟩

/-- C7, counterexample: `time.Time` is structurally a struct and implements
both marshal capabilities, yet `makeEncodeFunc` selects the special-cased
timestamp routine (`encodeTime`), not a capability routine — so the claim
"the encoder selected serializes via the capability" fails for it. -/
theorem c7_counterexample :
    timeTypeModel.kind = RKind.structK ∧
    timeTypeModel.implementsTextMarshaler = true ∧
    timeTypeModel.implementsBinaryMarshaler = true ∧
    makeEncodeFuncSel timeTypeModel = EncSel.timeEnc ∧
    isCapabilitySel (makeEncodeFuncSel timeTypeModel) = false := by decide

/-- C7, amended: a struct type implementing a custom encoding capability
(ValueEncoder, binary-marshal or text-marshal) is never encoded by walking
its fields; and unless the type has a registered adapter or is one of the
specifically handled types (such as `time.Time`), the selected routine is the
capability routine — capability checks take priority over structural kinds. -/
theorem c7_capability_priority (t : TypeModel)
    (hStruct : t.kind = RKind.structK)
    (hCap : t.implementsValueEncoder = true ∨
      t.implementsBinaryMarshaler = true ∨ t.implementsTextMarshaler = true) :
    makeEncodeFuncSel t ≠ EncSel.structEnc ∧
    (t.hasAdapter = false → t.special = none →
      isCapabilitySel (makeEncodeFuncSel t) = true) := by
  obtain ⟨ad, sp, ve, bm, tm, er, k, e8⟩ := t
  cases hStruct
  constructor
  · cases ad
    · rcases sp with _ | c
      · rcases hCap with h | h | h
        · cases h; simp [makeEncodeFuncSel]
        · cases h; cases ve <;> cases tm <;> simp [makeEncodeFuncSel]
        · cases h; cases ve <;> cases bm <;> simp [makeEncodeFuncSel]
      · cases c <;> simp [makeEncodeFuncSel]
    · simp [makeEncodeFuncSel]
  · intro hA hS
    cases hA
    cases hS
    rcases hCap with h | h | h
    · cases h; simp [makeEncodeFuncSel, isCapabilitySel]
    · cases h; cases ve <;> cases tm <;> simp [makeEncodeFuncSel, isCapabilitySel]
    · cases h; cases ve <;> cases bm <;> simp [makeEncodeFuncSel, isCapabilitySel]

/-- C7, witness for the amended theorem at a struct type implementing
`ValueEncoder`. -/
theorem c7_capability_priority_witness :
    makeEncodeFuncSel structVEModel ≠ EncSel.structEnc ∧
    isCapabilitySel (makeEncodeFuncSel structVEModel) = true :=
  ⟨(c7_capability_priority structVEModel rfl (Or.inl rfl)).1,
   (c7_capability_priority structVEModel rfl (Or.inl rfl)).2 rfl rfl⟩

/-- The counting loop of `encodeStructWith` agrees with filtering out the
omitted fields. -/
theorem countNonOmitted_eq_filter (fields : List (FieldM × Int)) :
    countNonOmitted fields =
      (fields.filter (fun p => !(p.1.omitF p.2))).length := by
  induction fields with
  | nil => rfl
  | cons p rest ih =>
    by_cases h : p.1.omitF p.2 <;>
      simp [countNonOmitted, List.filter_cons, h, ih, Nat.add_comm]

/-- An error-free run of the field loop of `encodeStructWith` appends exactly
the block `structBody` describes for the non-omitted fields, and succeeds. -/
theorem encodeStructLoop_ok (em : Emitter)
    (hEm : ∀ s t, em.emit s t = none)
    (encOut : FieldM × Int → List Token) :
    ∀ (fields : List (FieldM × Int)),
      (∀ p ∈ fields, ∀ s, p.1.encF p.2 s = (s ++ encOut p, none)) →
      ∀ (n : Nat) (st : List Token),
      encodeStructLoop em fields n st =
        (st ++ structBody encOut
            (fields.filter (fun p => !(p.1.omitF p.2))) (n == 0) ++
          [Token.mapEnd], none) := by
  intro fields
  induction fields with
  | nil =>
    intro _ n st
    simp [encodeStructLoop, structBody, Emitter.call, hEm]
  | cons p rest ih =>
    intro hEnc n st
    have hRest := fun q hq => hEnc q (List.mem_cons_of_mem p hq)
    have hHead := hEnc p (List.mem_cons_self p rest)
    by_cases hom : p.1.omitF p.2
    · simp [encodeStructLoop, hom, List.filter_cons, ih hRest n st]
    · by_cases hn : n = 0
      · subst hn
        simp [encodeStructLoop, hom, List.filter_cons, Emitter.call, hEm,
          hHead, ih hRest 1, structBody]
      · simp [encodeStructLoop, hom, hn, List.filter_cons, Emitter.call, hEm,
          hHead, ih hRest (n + 1), structBody, Nat.succ_ne_zero,
          beq_iff_eq]

/-- C4: for an error-free emitter and field routines, `encodeStructWith`
emits map-begin with a count equal to the number of non-omitted fields, and
the body consists of exactly one name/value pair per non-omitted field (an
omitted field contributes nothing), each under its declared wire name, as
`structBody` spells out. -/
theorem c4_struct_omit_count (em : Emitter)
    (hEm : ∀ s t, em.emit s t = none)
    (fields : List (FieldM × Int)) (st : List Token)
    (encOut : FieldM × Int → List Token)
    (hEnc : ∀ p ∈ fields, ∀ s, p.1.encF p.2 s = (s ++ encOut p, none)) :
    countNonOmitted fields =
      (fields.filter (fun p => !(p.1.omitF p.2))).length ∧
    encodeStructGo em fields st =
      (st ++ Token.mapBegin (countNonOmitted fields : Int) ::
        (structBody encOut (fields.filter (fun p => !(p.1.omitF p.2))) true ++
          [Token.mapEnd]), none) := by
  refine ⟨countNonOmitted_eq_filter fields, ?_⟩
  have hLoop := encodeStructLoop_ok em hEm encOut fields hEnc 0
  simp [encodeStructGo, Emitter.call, hEm, hLoop]

/-- C4, witness: the two-field struct with the omit-if-empty field at its
zero value emits map-begin with count 1 and exactly the one pair for "b". -/
theorem c4_struct_omit_count_witness :
    countNonOmitted wFields =
      (wFields.filter (fun p => !(p.1.omitF p.2))).length ∧
    encodeStructGo em0 wFields [] =
      ([] ++ Token.mapBegin (countNonOmitted wFields : Int) ::
        (structBody wEncOut (wFields.filter (fun p => !(p.1.omitF p.2))) true ++
          [Token.mapEnd]), none) :=
  c4_struct_omit_count em0 (fun _ _ => rfl) wFields [] wEncOut
    (by
      intro p hp s
      simp [wFields] at hp
      rcases hp with h | h <;> subst h <;> rfl)

/-- The element loop of `EncodeArray` never reports the `End` sentinel as its
own error when the emitter never does: `End` coming from the producer is
consumed by the loop. -/
theorem encodeArrayLoop_no_end (em : Emitter) (n : Int)
    (f : Nat → List Token → List Token × Option GoErr)
    (hEm : ∀ s t, em.emit s t ≠ some GoErr.endSentinel) :
    ∀ (fuel i : Nat) (st : List Token),
      (encodeArrayLoop em n f fuel i st).2 ≠ some GoErr.endSentinel := by
  intro fuel
  induction fuel with
  | zero =>
    intro i st
    simp only [encodeArrayLoop]
    split
    · simp
    · exact hEm st Token.arrayEnd
  | succ fuel ih =>
    intro i st
    simp only [encodeArrayLoop]
    split
    · cases hr : (f i (if i = 0 then st else st ++ [Token.arrayNext])).2 with
      | none => simpa [hr] using ih (i + 1) _
      | some e =>
        simp only [hr]
        by_cases he : e = GoErr.endSentinel
        · simpa [he] using hEm _ Token.arrayEnd
        · simp [he]
    · exact hEm st Token.arrayEnd

/-- C5: when the emitter never answers with the `End` sentinel, (i)
`EncodeArray` never returns `End` — a producer signalling `End` cannot leak
it to the caller — and (ii) at any iteration the loop reaches, a producer
returning `End` makes the loop stop right there and emit array-end (whose
emitter answer, not `End`, becomes the result). -/
theorem c5_end_consumed (em : Emitter) (n : Int)
    (f : Nat → List Token → List Token × Option GoErr) (fuel : Nat)
    (st : List Token) (key : Bool)
    (hEm : ∀ s t, em.emit s t ≠ some GoErr.endSentinel) :
    (encodeArrayGo em key n f fuel st).2 ≠ some GoErr.endSentinel ∧
    (∀ (i : Nat) (s : List Token),
      (n < 0 ∨ (i : Int) < n) →
      (f i (if i = 0 then s else s ++ [Token.arrayNext])).2 =
        some GoErr.endSentinel →
      encodeArrayLoop em n f (fuel + 1) i s =
        em.call (f i (if i = 0 then s else s ++ [Token.arrayNext])).1
          Token.arrayEnd) := by
  constructor
  · simp only [encodeArrayGo]
    split
    · cases hr : (em.call st Token.mapValue).2 with
      | none =>
        simp only [hr]
        cases hr2 : (em.call (em.call st Token.mapValue).1 (Token.arrayBegin n)).2 with
        | none => simpa [hr2] using encodeArrayLoop_no_end em n f hEm fuel 0 _
        | some e =>
          simp only [hr2]
          intro hc
          exact hEm _ (Token.arrayBegin n) (hr2.trans hc)
      | some e =>
        simp only [hr]
        intro hc
        exact hEm st Token.mapValue (hr.trans hc)
    · cases hr2 : (em.call st (Token.arrayBegin n)).2 with
      | none => simpa [hr2] using encodeArrayLoop_no_end em n f hEm fuel 0 _
      | some e =>
        simp only [hr2]
        intro hc
        exact hEm st (Token.arrayBegin n) (hr2.trans hc)
  · intro i s hcond hEnd
    simp [encodeArrayLoop, hcond, hEnd]

/-- C5, witness: an unknown-length array whose producer signals `End` at
once, over the always-succeeding emitter — `EncodeArray` does not return the
sentinel. -/
theorem c5_end_consumed_witness :
    (encodeArrayGo em0 false (-1) fEndAt0 5 []).2 ≠ some GoErr.endSentinel :=
  (c5_end_consumed em0 (-1) fEndAt0 5 [] false
    (fun _ _ h => Option.noConfusion h)).1

/-- C6: with `SortMapKeys` set, the emitted output of a map depends only on
its contents: encoding two maps holding the same keys (in any iteration
orders) with the same lookup yields identical traces, because both key lists
sort to the same sequence. -/
theorem c6_sorted_deterministic (em : Emitter)
    (kf : Nat → List Token → List Token × Option GoErr)
    (vf : Int → List Token → List Token × Option GoErr) (lookup : Nat → Int)
    (keys1 keys2 : List Nat) (key : Bool) (st : List Token)
    (hp : keys1.Perm keys2) :
    encodeMapSortedGo em kf vf lookup keys1 key st =
      encodeMapSortedGo em kf vf lookup keys2 key st := by
  have hsort : List.insertionSort (· ≤ ·) keys1 =
      List.insertionSort (· ≤ ·) keys2 :=
    List.eq_of_perm_of_sorted
      ((List.perm_insertionSort _ keys1).trans
        (hp.trans (List.perm_insertionSort _ keys2).symm))
      (List.sorted_insertionSort _ keys1)
      (List.sorted_insertionSort _ keys2)
  have hlen : keys1.length = keys2.length := hp.length_eq
  simp only [encodeMapSortedGo, hsort, hlen]

/-- C6, witness: the two-entry map in its two iteration orders encodes to the
same output under sorted keys. -/
theorem c6_sorted_deterministic_witness :
    encodeMapSortedGo em0 kfW vfW lookW [1, 2] false [] =
      encodeMapSortedGo em0 kfW vfW lookW [2, 1] false [] :=
  c6_sorted_deterministic em0 kfW vfW lookW [1, 2] [2, 1] false []
    (List.Perm.swap 2 1 [])

end Objconv
